import Mathlib

/-!
Shallow embedding of the asteroids game (`src/main.rs`) and verification of
the specification's claims about it.

Numeric modelling: the Rust code computes on `f64`; we embed the arithmetic
in an ordered field with a floor (instantiated at `ℚ` where claims need
concrete evaluation, and at `ℝ` for the ship, whose update uses `cos`/`sin`).
Rust's `%` on floats is the remainder of truncated division (sign of the
dividend), embedded below as `fmod`.
-/

namespace Asteroids

/-- Truncation toward zero (the rounding used by Rust's float `%`). -/
def trunc {α : Type} [LinearOrderedField α] [FloorRing α] (x : α) : ℤ :=
  if 0 ≤ x then ⌊x⌋ else ⌈x⌉

/-- Rust's `%` on `f64`: `x - y * trunc (x / y)`. -/
def fmod {α : Type} [LinearOrderedField α] [FloorRing α] (x y : α) : α :=
  x - y * (trunc (x / y) : α)

/-- `struct V2(pub f64, pub f64)` (`main.rs:120`), fields `.0`/`.1` named `x`/`y`. -/
structure V2 (α : Type) where
  x : α
  y : α
deriving DecidableEq

namespace V2

/-- `V2::ZERO` (`main.rs:122`). -/
def ZERO {α : Type} [LinearOrderedField α] : V2 α := ⟨0, 0⟩

/-- `impl Mul<f64> for V2` (`main.rs:129`). -/
def mul {α : Type} [LinearOrderedField α] (self : V2 α) (rhs : α) : V2 α :=
  ⟨self.x * rhs, self.y * rhs⟩

/-- `impl Rem for V2` (`main.rs:135`): `V2((self.0 + rhs.0) % rhs.0, (self.1 + rhs.1) % rhs.1)`. -/
def rem {α : Type} [LinearOrderedField α] [FloorRing α] (self rhs : V2 α) : V2 α :=
  ⟨fmod (self.x + rhs.x) rhs.x, fmod (self.y + rhs.y) rhs.y⟩

/-- `impl Add for V2` (`main.rs:141`). -/
def add {α : Type} [LinearOrderedField α] (self rhs : V2 α) : V2 α :=
  ⟨self.x + rhs.x, self.y + rhs.y⟩

end V2

/-- `struct Momentum` (`main.rs:154`). -/
structure Momentum (α : Type) where
  pos : V2 α
  vel : V2 α
  bounds : V2 α
deriving DecidableEq

namespace Momentum

/-- `Momentum::new` (`main.rs:161`). -/
def new {α : Type} [LinearOrderedField α]
    (position velocity bounds : V2 α) : Momentum α :=
  { pos := position, vel := velocity, bounds := bounds }

/-- `Momentum::apply_acceleration` (`main.rs:168`): `dt` stands for the
already-converted `f64_duration(time)` (hence non-negative in every call, as
`Duration` is non-negative). The position expression mirrors
`self.pos + self.vel * dt + acceleration * 0.5 * dt * dt`. -/
def apply_acceleration {α : Type} [LinearOrderedField α] [FloorRing α]
    (self : Momentum α) (dt : α) (acceleration : V2 α) : Momentum α :=
  let position := (self.pos.add (self.vel.mul dt)).add
    (((acceleration.mul (1 / 2)).mul dt).mul dt)
  { pos := position.rem self.bounds
    vel := self.vel.add (acceleration.mul dt)
    bounds := self.bounds }

/-- `Momentum::no_acceleration` (`main.rs:175`). -/
def no_acceleration {α : Type} [LinearOrderedField α] [FloorRing α]
    (self : Momentum α) (dt : α) : Momentum α :=
  self.apply_acceleration dt V2.ZERO

/-- `Momentum::apply_impulse` (`main.rs:178`). -/
def apply_impulse {α : Type} [LinearOrderedField α]
    (self : Momentum α) (impulse : V2 α) : Momentum α :=
  { self with vel := self.vel.add impulse }

/-- `Momentum::set_pos` (`main.rs:181`). -/
def set_pos {α : Type} [LinearOrderedField α]
    (self : Momentum α) (position : V2 α) : Momentum α :=
  { self with pos := position }

/-- `Momentum::get_pos` (`main.rs:184`). -/
def get_pos {α : Type} [LinearOrderedField α] (self : Momentum α) : V2 α :=
  self.pos

end Momentum

/-- `enum KeyStatus` (`main.rs:37`). -/
inductive KeyStatus
  | Up
  | Held
  | Down
deriving DecidableEq

namespace KeyStatus

/-- `KeyStatus::step` (`main.rs:43`), as a pure transition function. -/
def step : KeyStatus → KeyStatus
  | .Down => .Held
  | .Held => .Held
  | .Up => .Up

/-- `KeyStatus::down` (`main.rs:50`). -/
def down : KeyStatus → Bool
  | .Down => true
  | .Held => true
  | _ => false

end KeyStatus

/-- `struct Keys` (`main.rs:60`). -/
structure Keys where
  thrust : KeyStatus
  left : KeyStatus
  right : KeyStatus
  fire : KeyStatus
  pause : KeyStatus
  quit : KeyStatus
deriving DecidableEq

/-- SDL keycodes relevant to `Keys::with_events`; every other key is `other`. -/
inductive Keycode
  | up
  | left
  | right
  | space
  | p
  | q
  | escape
  | other
deriving DecidableEq

/-- SDL window events: `Close` versus anything else. -/
inductive WindowEvent
  | close
  | other
deriving DecidableEq

/-- SDL events as consumed by `Keys::with_events`: key edges (with keycode and
OS-auto-repeat flag), the application quit request, window events, and all
other event kinds collapsed to `other`. -/
inductive Event
  | keyDown (keycode : Option Keycode) (isRepeat : Bool)
  | keyUp (keycode : Option Keycode) (isRepeat : Bool)
  | quit
  | window (win_event : WindowEvent)
  | other
deriving DecidableEq

namespace Keys

/-- `Keys::new` (`main.rs:69`). -/
def new : Keys :=
  { thrust := .Up, left := .Up, right := .Up, fire := .Up, pause := .Up, quit := .Up }

/-- Body of the closure in `Keys::with_events` (`main.rs:80`–`main.rs:115`) for a
single event. The first `match` either assigns `value` or does an early
`return` (modelled by `value?` being `none`); note that `Event::Quit` and
`Event::Window` both fall into the `_ => return` arm of the first `match`, so
the second `match`'s arms for them are unreachable. -/
def applyEvent (self : Keys) (event : Event) : Keys :=
  let value? : Option KeyStatus :=
    match event with
    | .keyDown _ false => some .Down
    | .keyUp _ false => some .Up
    | _ => none
  match value? with
  | none => self
  | some value =>
    match event with
    | .keyDown (some key) false
    | .keyUp (some key) false =>
      match key with
      | .up => { self with thrust := value }
      | .left => { self with left := value }
      | .right => { self with right := value }
      | .space => { self with fire := value }
      | .p => { self with pause := value }
      | .q => { self with quit := value }
      | .escape => { self with quit := value }
      | .other => self
    | .quit => { self with quit := .Down }
    | .window .close => { self with quit := .Down }
    | _ => self

/-- `Keys::with_events` (`main.rs:79`): `event_pump.poll_iter().for_each(...)`,
the drained event queue passed as a list. No `KeyStatus::step` is applied
anywhere in this function. -/
def with_events (self : Keys) (events : List Event) : Keys :=
  events.foldl applyEvent self

end Keys

/-- `struct Asteroid` (`main.rs:307`), embedded over `ℚ`; the malformed
`texture` field (the struct does not compile as written) carries no game state
and is omitted, exactly as `Asteroid::new` (`main.rs:317`) omits it. -/
structure Asteroid where
  momentum : Momentum ℚ
  radius : ℚ
deriving DecidableEq

namespace Asteroid

/-- `Asteroid::INITIAL_RADIUS` (`main.rs:314`). -/
def INITIAL_RADIUS : ℚ := 32

/-- `Asteroid::MIN_RADIUS` (`main.rs:315`). -/
def MIN_RADIUS : ℚ := 7

/-- `Asteroid::VELOCITY_CHANGE` (`main.rs:316`). -/
def VELOCITY_CHANGE : ℚ := 5000

/-- `Asteroid::new` (`main.rs:317`). -/
def new (momentum : Momentum ℚ) (radius : ℚ) : Asteroid :=
  { momentum := momentum, radius := radius }

/-- `Asteroid::new_big_asteroid` (`main.rs:323`). -/
def new_big_asteroid (momentum : Momentum ℚ) : Asteroid :=
  { momentum := momentum, radius := INITIAL_RADIUS }

/-- `Asteroid::split` (`main.rs:329`). The four `rng.gen_range(-dv, dv)` draws
from the global RNG are modelled as explicit arguments `x1 x2 y1 y2`, in the
order drawn; `gen_range` guarantees each lies in `[-dv, dv)` for
`dv = VELOCITY_CHANGE / new_radius`. -/
def split (self : Asteroid) (x1 x2 y1 y2 : ℚ) : Option (Asteroid × Asteroid) :=
  let new_radius := self.radius / 2
  if new_radius < MIN_RADIUS then
    none
  else
    let m1 := self.momentum.apply_impulse ⟨x1, y1⟩
    let m2 := self.momentum.apply_impulse ⟨x2, y2⟩
    some (new m1 new_radius, new m2 new_radius)

/-- Value of `dv = Asteroid::VELOCITY_CHANGE / new_radius` computed inside
`split` (`main.rs:335`). -/
def split_dv (self : Asteroid) : ℚ :=
  VELOCITY_CHANGE / (self.radius / 2)

/-- `Asteroid::step` (`main.rs:350`). -/
def step (self : Asteroid) (dt : ℚ) : Asteroid :=
  { self with momentum := self.momentum.no_acceleration dt }

end Asteroid

/-- `struct Ship` (`main.rs:189`), embedded over `ℝ` (its update takes
`cos`/`sin` of the angle); the two textures are render-backend state with no
effect on the fields below and are omitted. -/
structure Ship where
  angle : ℝ
  momentum : Momentum ℝ
  thrust : Bool

namespace Ship

/-- `Ship::ACCEL` (`main.rs:200`). -/
def ACCEL : ℝ := 100

/-- `Ship::ANGULAR_ACCEL` (`main.rs:202`). -/
def ANGULAR_ACCEL : ℝ := 4

/-- Field state set up by `Ship::new` (`main.rs:204`). -/
def new : Ship :=
  { angle := 0
    momentum := Momentum.new ⟨100, 100⟩ ⟨0, 0⟩ ⟨800, 600⟩
    thrust := false }

/-- `Ship::step` (`main.rs:217`): the angle is updated first (left, then
right), and the acceleration uses the updated angle; `dt` stands for
`f64_duration(duration)`. -/
noncomputable def step (self : Ship) (dt : ℝ) (thrust left right : Bool) : Ship :=
  let angle1 := if left then self.angle - ANGULAR_ACCEL * dt else self.angle
  let angle2 := if right then angle1 + ANGULAR_ACCEL * dt else angle1
  let accel : V2 ℝ :=
    if thrust then ⟨Real.cos angle2 * ACCEL, Real.sin angle2 * ACCEL⟩ else V2.ZERO
  { angle := angle2
    momentum := self.momentum.apply_acceleration dt accel
    thrust := thrust }

end Ship

/-- Observable side-effect classes of one iteration of the `loop` in `main`
(`main.rs:391`) past the input-processing step: stepping the ship, drawing it,
presenting the canvas, and the frame sleep. -/
inductive FrameEffect
  | update
  | render
  | present
  | sleep
deriving DecidableEq

/-- One iteration of the `loop` in `main` (`main.rs:391`–`main.rs:412`): drain
the event queue into `keys`; if `keys` matches `Keys { quit: KeyStatus::Down, .. }`
the loop `break`s (result `none`: no update, render, present or sleep);
otherwise the ship is stepped with the current key states and the frame is
rendered, presented and slept (result `some` of the stepped ship). The updated
`keys` is returned in either case. -/
noncomputable def mainIteration (keys : Keys) (ship : Ship) (events : List Event) (dt : ℝ) :
    Keys × Option Ship :=
  let keys := keys.with_events events
  match keys.quit with
  | KeyStatus.Down => (keys, none)
  | _ =>
    (keys, some (ship.step dt keys.thrust.down keys.left.down keys.right.down))

/-- Effect trace of one iteration of the `loop` in `main` (`main.rs:391`): on a
`break` nothing past input processing runs; otherwise the iteration performs
the update, render, present and sleep in order. -/
def mainIterationEffects (keys : Keys) (events : List Event) : List FrameEffect :=
  let keys := keys.with_events events
  match keys.quit with
  | KeyStatus.Down => []
  | _ => [.update, .render, .present, .sleep]

/-- Membership of a position in the playfield box `[0, b.x) × [0, b.y)`. -/
def inBox (p b : V2 ℚ) : Prop :=
  0 ≤ p.x ∧ p.x < b.x ∧ 0 ≤ p.y ∧ p.y < b.y

instance (p b : V2 ℚ) : Decidable (inBox p b) := by
  unfold inBox
  infer_instance

/-- Sample kinematic body matching the one built in `Ship::new` / usable for
asteroids: position `(100, 100)`, velocity `(0, 0)`, bounds `(800, 600)`. -/
def sampleMomentum : Momentum ℚ :=
  Momentum.new ⟨100, 100⟩ ⟨0, 0⟩ ⟨800, 600⟩

/-- Sample parent asteroid of radius 32. -/
def sampleParent : Asteroid := Asteroid.new sampleMomentum 32

/-- First fragment of `sampleParent.split 1 2 3 4`. -/
def sampleFrag1 : Asteroid :=
  Asteroid.new (Momentum.new ⟨100, 100⟩ ⟨1, 3⟩ ⟨800, 600⟩) 16

/-- Second fragment of `sampleParent.split 1 2 3 4`. -/
def sampleFrag2 : Asteroid :=
  Asteroid.new (Momentum.new ⟨100, 100⟩ ⟨2, 4⟩ ⟨800, 600⟩) 16

/-- Sample key state differing from `Keys.new` exactly in `fire` and `pause`. -/
def sampleKeysFiredPaused : Keys :=
  { Keys.new with fire := KeyStatus.Down, pause := KeyStatus.Held }

/-! Helper lemmas. -/

/-- Remainder bound: for a non-negative dividend and positive divisor,
`fmod x b` lies in `[0, b)`. -/
theorem fmod_nonneg_lt {α : Type} [LinearOrderedField α] [FloorRing α]
    (x b : α) (hx : 0 ≤ x) (hb : 0 < b) : 0 ≤ fmod x b ∧ fmod x b < b := by
  have hb0 : b ≠ 0 := ne_of_gt hb
  have hdiv : 0 ≤ x / b := div_nonneg hx hb.le
  have hfr : Int.fract (x / b) = x / b - (⌊x / b⌋ : α) := rfl
  have hf : fmod x b = b * Int.fract (x / b) := by
    unfold fmod trunc
    rw [if_pos hdiv, hfr, mul_sub, mul_div_cancel₀ x hb0]
  constructor
  · rw [hf]
    exact mul_nonneg hb.le (Int.fract_nonneg _)
  · rw [hf]
    calc b * Int.fract (x / b) < b * 1 :=
          mul_lt_mul_of_pos_left (Int.fract_lt_one _) hb
      _ = b := mul_one b

/-- Agreement of the four ship-relevant controls is preserved by a single
event application, whatever `fire` and `pause` hold. -/
theorem applyEvent_agree (e : Event) (k1 k2 : Keys)
    (ht : k1.thrust = k2.thrust) (hl : k1.left = k2.left)
    (hr : k1.right = k2.right) (hq : k1.quit = k2.quit) :
    (k1.applyEvent e).thrust = (k2.applyEvent e).thrust ∧
    (k1.applyEvent e).left = (k2.applyEvent e).left ∧
    (k1.applyEvent e).right = (k2.applyEvent e).right ∧
    (k1.applyEvent e).quit = (k2.applyEvent e).quit := by
  cases e with
  | keyDown kc r =>
    cases r
    · cases kc with
      | none => simp [Keys.applyEvent, ht, hl, hr, hq]
      | some k => cases k <;> simp [Keys.applyEvent, ht, hl, hr, hq]
    · simp [Keys.applyEvent, ht, hl, hr, hq]
  | keyUp kc r =>
    cases r
    · cases kc with
      | none => simp [Keys.applyEvent, ht, hl, hr, hq]
      | some k => cases k <;> simp [Keys.applyEvent, ht, hl, hr, hq]
    · simp [Keys.applyEvent, ht, hl, hr, hq]
  | quit => simp [Keys.applyEvent, ht, hl, hr, hq]
  | window w => cases w <;> simp [Keys.applyEvent, ht, hl, hr, hq]
  | other => simp [Keys.applyEvent, ht, hl, hr, hq]

/-- Agreement of the four ship-relevant controls is preserved by a whole
frame's event queue. -/
theorem with_events_agree (events : List Event) :
    ∀ (k1 k2 : Keys), k1.thrust = k2.thrust → k1.left = k2.left →
      k1.right = k2.right → k1.quit = k2.quit →
      (k1.with_events events).thrust = (k2.with_events events).thrust ∧
      (k1.with_events events).left = (k2.with_events events).left ∧
      (k1.with_events events).right = (k2.with_events events).right ∧
      (k1.with_events events).quit = (k2.with_events events).quit := by
  induction events with
  | nil => exact fun k1 k2 ht hl hr hq => ⟨ht, hl, hr, hq⟩
  | cons e es ih =>
    intro k1 k2 ht hl hr hq
    have h := applyEvent_agree e k1 k2 ht hl hr hq
    simpa [Keys.with_events] using
      ih (k1.applyEvent e) (k2.applyEvent e) h.1 h.2.1 h.2.2.1 h.2.2.2

/-! Claim theorems. -/

/-- C8: `KeyStatus.step` maps `Down` to `Held`, `Held` to `Held` and `Up` to
`Up`; it is idempotent beyond the first application (`step ∘ step = step`);
and `down` returns true exactly on `Down` and `Held`. -/
theorem key_status_machine :
    KeyStatus.Down.step = KeyStatus.Held ∧
    KeyStatus.Held.step = KeyStatus.Held ∧
    KeyStatus.Up.step = KeyStatus.Up ∧
    (∀ s : KeyStatus, s.step.step = s.step) ∧
    (∀ s : KeyStatus, s.down = true ↔ (s = KeyStatus.Down ∨ s = KeyStatus.Held)) := by
  refine ⟨rfl, rfl, rfl, fun s => ?_, fun s => ?_⟩ <;>
    cases s <;> simp [KeyStatus.step, KeyStatus.down]

/-- C10: `Momentum.set_pos` stores the given position exactly as passed, with
no wrap applied, and leaves `vel` and `bounds` unchanged; in particular it can
place the position outside the `[0, bounds.x) × [0, bounds.y)` box, as the
concrete instance `(1000, 700)` against bounds `(800, 600)` shows. -/
theorem set_pos_stores_exactly :
    (∀ (m : Momentum ℚ) (p : V2 ℚ),
      (m.set_pos p).pos = p ∧ (m.set_pos p).vel = m.vel ∧
      (m.set_pos p).bounds = m.bounds) ∧
    (sampleMomentum.set_pos ⟨1000, 700⟩).pos = (⟨1000, 700⟩ : V2 ℚ) ∧
    ¬ inBox (sampleMomentum.set_pos ⟨1000, 700⟩).pos
        (sampleMomentum.set_pos ⟨1000, 700⟩).bounds :=
  ⟨fun m p => ⟨rfl, rfl, rfl⟩, rfl, by decide⟩

/-- C2 (code bug): a window-close or application-quit event does NOT set the
quit control to `Down` — the first `match` in `Keys::with_events` hits its
`_ => return` arm for every non-key event, so the second `match`'s
`Event::Quit` and `Event::Window { Close }` arms are unreachable and both
events leave the key state completely unchanged. -/
theorem quit_events_ignored :
    (∀ keys : Keys, keys.applyEvent Event.quit = keys ∧
      keys.applyEvent (Event.window WindowEvent.close) = keys) ∧
    Keys.new.with_events [Event.quit, Event.window WindowEvent.close] = Keys.new ∧
    (Keys.new.with_events [Event.quit]).quit = KeyStatus.Up :=
  ⟨fun _ => ⟨rfl, rfl⟩, rfl, rfl⟩

/-- C3 (code bug): no `KeyStatus::step` is applied per frame anywhere —
`Keys::with_events` only applies the queued events, and `main` calls nothing
else on `keys` — so a key that received a key-down event on frame N still
reports `Down` (not `Held`) on frame N+1 with no further events, and a frame
with an empty event queue leaves every field untouched. -/
theorem down_persists_without_step :
    (∀ keys : Keys, keys.with_events [] = keys) ∧
    (Keys.new.with_events [Event.keyDown (some Keycode.up) false]).thrust
      = KeyStatus.Down ∧
    ((Keys.new.with_events [Event.keyDown (some Keycode.up) false]).with_events
        []).thrust = KeyStatus.Down ∧
    ((Keys.new.with_events [Event.keyDown (some Keycode.up) false]).with_events
        []).thrust ≠ KeyStatus.Held :=
  ⟨fun _ => rfl, rfl, rfl, by decide⟩

/-- C6 (code bug): issuing a quit-request event does not stop the loop — the
event is dropped by `Keys::with_events` (see C2), the quit control stays `Up`,
and the iteration goes on to perform the update, render, present and sleep;
by contrast a `Q` key-down does set the quit control to `Down`, on which the
loop `break`s before any of those effects. -/
theorem quit_request_does_not_stop_loop :
    (Keys.new.with_events [Event.quit]).quit = KeyStatus.Up ∧
    mainIterationEffects Keys.new [Event.quit] =
      [FrameEffect.update, FrameEffect.render, FrameEffect.present,
        FrameEffect.sleep] ∧
    (mainIteration Keys.new Ship.new [Event.quit] 1).2.isSome = true ∧
    mainIterationEffects Keys.new [Event.keyDown (some Keycode.q) false] = [] ∧
    (mainIteration Keys.new Ship.new [Event.keyDown (some Keycode.q) false] 1).2
      = none :=
  ⟨rfl, rfl, rfl, rfl, rfl⟩

/-- C1 counterexample: splitting an asteroid of radius 8 returns `none` — the
halved radius 4 is below `MIN_RADIUS = 7` — whereas the claim states that
`split(8)` yields two asteroids of radius 4. -/
theorem split_eight_returns_none :
    (Asteroid.new sampleMomentum 8).split 0 0 0 0 = none := by
  norm_num [Asteroid.split, Asteroid.MIN_RADIUS, Asteroid.new, sampleMomentum]

/-- C1 (amended): when `split` returns fragments each has half the parent's
radius, and `split` returns `none` exactly when the halved radius is below
`MIN_RADIUS = 7`; concretely, `split(32)` yields two asteroids of radius 16,
`split(16)` yields two of radius 8, and `split(8)` and `split(4)` return
nothing. -/
theorem split_radius_halving :
    (∀ (a : Asteroid) (x1 x2 y1 y2 : ℚ),
      (a.split x1 x2 y1 y2).map (fun f => (f.1.radius, f.2.radius)) =
        if a.radius / 2 < Asteroid.MIN_RADIUS then none
        else some (a.radius / 2, a.radius / 2)) ∧
    ((Asteroid.new sampleMomentum 32).split 0 0 0 0).map
      (fun f => (f.1.radius, f.2.radius)) = some (16, 16) ∧
    ((Asteroid.new sampleMomentum 16).split 0 0 0 0).map
      (fun f => (f.1.radius, f.2.radius)) = some (8, 8) ∧
    (Asteroid.new sampleMomentum 8).split 0 0 0 0 = none ∧
    (Asteroid.new sampleMomentum 4).split 0 0 0 0 = none := by
  refine ⟨fun a x1 x2 y1 y2 => ?_, ?_, ?_, ?_, ?_⟩
  · by_cases h : a.radius / 2 < Asteroid.MIN_RADIUS
    · simp [Asteroid.split, h]
    · simp [Asteroid.split, h, Asteroid.new]
  all_goals
    norm_num [Asteroid.split, Asteroid.MIN_RADIUS, Asteroid.new, sampleMomentum]

/-- C4: one integration step yields
`pos' = wrap (pos + vel * dt + a * (0.5 * dt ^ 2)) bounds` — computed from the
pre-update velocity — and `vel' = vel + a * dt`, with `bounds` unchanged; with
zero acceleration (`no_acceleration`) this is pure linear drift,
`pos' = wrap (pos + vel * dt) bounds` with the velocity unchanged. Stated over
any ordered field with a floor, covering both the `ℚ` and the `ℝ`
instantiations of the embedding; the claim's non-negative `dt` are a special
case of all `dt`. -/
theorem apply_acceleration_kinematics {α : Type} [LinearOrderedField α] [FloorRing α] :
    ∀ (m : Momentum α) (dt : α) (a : V2 α),
      (m.apply_acceleration dt a).pos
        = ((m.pos.add (m.vel.mul dt)).add (a.mul (1 / 2 * dt ^ 2))).rem m.bounds ∧
      (m.apply_acceleration dt a).vel = m.vel.add (a.mul dt) ∧
      (m.apply_acceleration dt a).bounds = m.bounds ∧
      (m.no_acceleration dt).pos = (m.pos.add (m.vel.mul dt)).rem m.bounds ∧
      (m.no_acceleration dt).vel = m.vel := by
  intro m dt a
  refine ⟨?_, rfl, rfl, ?_, ?_⟩
  · show (((m.pos.add (m.vel.mul dt)).add
        (((a.mul (1 / 2)).mul dt).mul dt)).rem m.bounds) = _
    congr 1
    simp only [V2.add, V2.mul, V2.mk.injEq]
    constructor <;> ring
  · show (((m.pos.add (m.vel.mul dt)).add
        (((V2.ZERO.mul (1 / 2)).mul dt).mul dt)).rem m.bounds) = _
    congr 1
    simp only [V2.add, V2.mul, V2.ZERO, V2.mk.injEq]
    constructor <;> ring
  · show m.vel.add (V2.ZERO.mul dt) = m.vel
    simp [V2.add, V2.mul, V2.ZERO]

/-- C5: for a position in the box `[0, b.x) × [0, b.y)` and a single-frame
displacement smaller than the bounds in absolute value per component, the wrap
`(v + bounds) mod bounds` lands back in the box; hence the kinematic body's
position is in the box after any integration step whose displacement
`vel * dt + a * 0.5 * dt * dt` satisfies that hypothesis. -/
theorem wrap_position_in_box :
    (∀ (p d b : V2 ℚ), inBox p b → |d.x| < b.x → |d.y| < b.y →
      inBox ((p.add d).rem b) b) ∧
    (∀ (m : Momentum ℚ) (dt : ℚ) (a : V2 ℚ),
      inBox m.pos m.bounds →
      |((m.vel.mul dt).add (((a.mul (1 / 2)).mul dt).mul dt)).x| < m.bounds.x →
      |((m.vel.mul dt).add (((a.mul (1 / 2)).mul dt).mul dt)).y| < m.bounds.y →
      inBox (m.apply_acceleration dt a).pos m.bounds) := by
  have main : ∀ (p d b : V2 ℚ), inBox p b → |d.x| < b.x → |d.y| < b.y →
      inBox ((p.add d).rem b) b := by
    intro p d b hp hdx hdy
    obtain ⟨hpx0, hpxb, hpy0, hpyb⟩ := hp
    have hbx : 0 < b.x := lt_of_le_of_lt hpx0 hpxb
    have hby : 0 < b.y := lt_of_le_of_lt hpy0 hpyb
    have hdx' : -b.x < d.x := (abs_lt.mp hdx).1
    have hdy' : -b.y < d.y := (abs_lt.mp hdy).1
    have hx0 : 0 ≤ p.x + d.x + b.x := by linarith
    have hy0 : 0 ≤ p.y + d.y + b.y := by linarith
    have hx := fmod_nonneg_lt (p.x + d.x + b.x) b.x hx0 hbx
    have hy := fmod_nonneg_lt (p.y + d.y + b.y) b.y hy0 hby
    simp only [inBox, V2.add, V2.rem]
    exact ⟨hx.1, hx.2, hy.1, hy.2⟩
  refine ⟨main, fun m dt a hm hx hy => ?_⟩
  have h : (m.apply_acceleration dt a).pos
      = (m.pos.add ((m.vel.mul dt).add (((a.mul (1 / 2)).mul dt).mul dt))).rem
          m.bounds := by
    show (((m.pos.add (m.vel.mul dt)).add
        (((a.mul (1 / 2)).mul dt).mul dt)).rem m.bounds) = _
    congr 1
    simp only [V2.add, V2.mk.injEq]
    constructor <;> ring
  rw [h]
  exact main m.pos _ m.bounds hm hx hy

/-- C5 witness: the wrap theorem applied at position `(1, 2)`, displacement
`(-3, 4)`, bounds `(10, 10)`, and the integration corollary applied to the
sample body with `dt = 1` and zero acceleration. -/
theorem wrap_position_in_box_witness :
    inBox ⟨1, 2⟩ ⟨10, 10⟩ ∧ |((⟨-3, 4⟩ : V2 ℚ)).x| < (10 : ℚ) ∧
    |((⟨-3, 4⟩ : V2 ℚ)).y| < (10 : ℚ) ∧
    inBox (((⟨1, 2⟩ : V2 ℚ).add ⟨-3, 4⟩).rem ⟨10, 10⟩) ⟨10, 10⟩ ∧
    inBox sampleMomentum.pos sampleMomentum.bounds ∧
    inBox (sampleMomentum.apply_acceleration 1 ⟨0, 0⟩).pos sampleMomentum.bounds :=
  ⟨by decide, by decide, by decide,
   wrap_position_in_box.1 ⟨1, 2⟩ ⟨-3, 4⟩ ⟨10, 10⟩ (by decide) (by decide) (by decide),
   by decide,
   wrap_position_in_box.2 sampleMomentum 1 ⟨0, 0⟩ (by decide)
     (by norm_num [sampleMomentum, Momentum.new, V2.mul, V2.add])
     (by norm_num [sampleMomentum, Momentum.new, V2.mul, V2.add])⟩

/-- C7: when `split` yields two fragments, each fragment's body is the
parent's clone (same position and bounds) with velocity the parent's plus the
per-fragment random impulse `(x1, y1)` resp. `(x2, y2)`; each per-axis
deviation from the parent is bounded by `dv = VELOCITY_CHANGE / new_radius`
whenever the draws are (as `gen_range(-dv, dv)` guarantees); and the two
fragments differ in velocity from each other and from the parent whenever the
corresponding draws do not coincide. -/
theorem split_fragment_momentum (a : Asteroid) (x1 x2 y1 y2 : ℚ) (a1 a2 : Asteroid)
    (hs : a.split x1 x2 y1 y2 = some (a1, a2))
    (hx1 : |x1| ≤ a.split_dv) (hy1 : |y1| ≤ a.split_dv)
    (hx2 : |x2| ≤ a.split_dv) (hy2 : |y2| ≤ a.split_dv)
    (hne : (x1, y1) ≠ (x2, y2)) (h10 : (x1, y1) ≠ ((0 : ℚ), (0 : ℚ)))
    (h20 : (x2, y2) ≠ ((0 : ℚ), (0 : ℚ))) :
    (a1.momentum.pos = a.momentum.pos ∧ a1.momentum.bounds = a.momentum.bounds ∧
     a2.momentum.pos = a.momentum.pos ∧ a2.momentum.bounds = a.momentum.bounds) ∧
    (a1.momentum.vel = a.momentum.vel.add ⟨x1, y1⟩ ∧
     a2.momentum.vel = a.momentum.vel.add ⟨x2, y2⟩) ∧
    (|a1.momentum.vel.x - a.momentum.vel.x| ≤ a.split_dv ∧
     |a1.momentum.vel.y - a.momentum.vel.y| ≤ a.split_dv ∧
     |a2.momentum.vel.x - a.momentum.vel.x| ≤ a.split_dv ∧
     |a2.momentum.vel.y - a.momentum.vel.y| ≤ a.split_dv) ∧
    a1.momentum.vel ≠ a2.momentum.vel ∧
    a1.momentum.vel ≠ a.momentum.vel ∧
    a2.momentum.vel ≠ a.momentum.vel := by
  simp only [Asteroid.split] at hs
  by_cases h : a.radius / 2 < Asteroid.MIN_RADIUS
  · rw [if_pos h] at hs
    exact absurd hs (by simp)
  · rw [if_neg h] at hs
    simp only [Option.some.injEq, Prod.mk.injEq] at hs
    obtain ⟨h1, h2⟩ := hs
    subst h1
    subst h2
    refine ⟨⟨rfl, rfl, rfl, rfl⟩, ⟨rfl, rfl⟩, ⟨?_, ?_, ?_, ?_⟩, ?_, ?_, ?_⟩
    · show |(a.momentum.vel.x + x1) - a.momentum.vel.x| ≤ a.split_dv
      rw [add_sub_cancel_left]
      exact hx1
    · show |(a.momentum.vel.y + y1) - a.momentum.vel.y| ≤ a.split_dv
      rw [add_sub_cancel_left]
      exact hy1
    · show |(a.momentum.vel.x + x2) - a.momentum.vel.x| ≤ a.split_dv
      rw [add_sub_cancel_left]
      exact hx2
    · show |(a.momentum.vel.y + y2) - a.momentum.vel.y| ≤ a.split_dv
      rw [add_sub_cancel_left]
      exact hy2
    · intro heq
      have hxe := congrArg V2.x heq
      have hye := congrArg V2.y heq
      simp only [Asteroid.new, Momentum.apply_impulse, V2.add] at hxe hye
      apply hne
      simp only [Prod.mk.injEq]
      constructor <;> linarith
    · intro heq
      have hxe := congrArg V2.x heq
      have hye := congrArg V2.y heq
      simp only [Asteroid.new, Momentum.apply_impulse, V2.add] at hxe hye
      apply h10
      simp only [Prod.mk.injEq]
      constructor <;> linarith
    · intro heq
      have hxe := congrArg V2.x heq
      have hye := congrArg V2.y heq
      simp only [Asteroid.new, Momentum.apply_impulse, V2.add] at hxe hye
      apply h20
      simp only [Prod.mk.injEq]
      constructor <;> linarith

/-- C7 witness: the split theorem applied to the radius-32 sample parent with
draws `(1, 3)` and `(2, 4)`, all within `dv = 5000 / 16 = 312.5`. -/
theorem split_fragment_momentum_witness :
    sampleParent.split 1 2 3 4 = some (sampleFrag1, sampleFrag2) ∧
    sampleFrag1.momentum.vel = sampleParent.momentum.vel.add ⟨1, 3⟩ ∧
    sampleFrag1.momentum.vel ≠ sampleFrag2.momentum.vel := by
  have hs : sampleParent.split 1 2 3 4 = some (sampleFrag1, sampleFrag2) := by
    norm_num [sampleParent, sampleFrag1, sampleFrag2, sampleMomentum,
      Asteroid.split, Asteroid.MIN_RADIUS, Asteroid.new, Momentum.apply_impulse,
      Momentum.new, V2.add]
  have hdv : ∀ q : ℚ, q = 1 ∨ q = 2 ∨ q = 3 ∨ q = 4 → |q| ≤ sampleParent.split_dv := by
    intro q hq
    rcases hq with h | h | h | h <;>
      rw [h] <;>
      norm_num [sampleParent, Asteroid.split_dv, Asteroid.VELOCITY_CHANGE, Asteroid.new]
  have h := split_fragment_momentum sampleParent 1 2 3 4 sampleFrag1 sampleFrag2 hs
    (hdv 1 (by norm_num)) (hdv 3 (by norm_num)) (hdv 2 (by norm_num))
    (hdv 4 (by norm_num)) (by decide) (by decide) (by decide)
  exact ⟨hs, h.2.1.1, h.2.2.2.1⟩

/-- C9: the ship state produced by one main-loop iteration and the decision to
continue or stop are independent of the fire and pause controls — two key
states agreeing on thrust, left, right and quit but arbitrary on fire and
pause yield the same iteration outcome for the same event queue. -/
theorem fire_pause_noninterference (k1 k2 : Keys) (events : List Event)
    (ship : Ship) (dt : ℝ)
    (ht : k1.thrust = k2.thrust) (hl : k1.left = k2.left)
    (hr : k1.right = k2.right) (hq : k1.quit = k2.quit) :
    (mainIteration k1 ship events dt).2 = (mainIteration k2 ship events dt).2 := by
  obtain ⟨ht', hl', hr', hq'⟩ := with_events_agree events k1 k2 ht hl hr hq
  simp only [mainIteration]
  cases h2 : (k2.with_events events).quit with
  | Down => rw [hq', h2]
  | Up =>
    rw [hq', h2]
    simp [ht', hl', hr']
  | Held =>
    rw [hq', h2]
    simp [ht', hl', hr']

/-- C9 witness: the noninterference theorem applied to `Keys.new` and the same
state with `fire` pressed and `pause` held, over an empty event queue. -/
theorem fire_pause_noninterference_witness :
    Keys.new.thrust = sampleKeysFiredPaused.thrust ∧
    Keys.new.left = sampleKeysFiredPaused.left ∧
    Keys.new.right = sampleKeysFiredPaused.right ∧
    Keys.new.quit = sampleKeysFiredPaused.quit ∧
    Keys.new.fire ≠ sampleKeysFiredPaused.fire ∧
    Keys.new.pause ≠ sampleKeysFiredPaused.pause ∧
    (mainIteration Keys.new Ship.new [] 1).2
      = (mainIteration sampleKeysFiredPaused Ship.new [] 1).2 :=
  ⟨rfl, rfl, rfl, rfl, by decide, by decide,
   fire_pause_noninterference Keys.new sampleKeysFiredPaused [] Ship.new 1
     rfl rfl rfl rfl⟩

end Asteroids
